import Mathlib

/-!
Verification of the queue/worker engine of the Remote-Job-Executor repository.

The development shallowly embeds the persistent data model (the `job` table row),
the state transitions of `src/classes/job.ts` (`moveToRunning`, `moveToCompleted`,
`moveToFailed`, `moveToCancelled`, `cancelJob`, `retry`, `addLog`/`cleanOldLogs`),
the atomic lease query of `Worker.fetchAndLockNextJobs`, and the command
construction of `RemoteExecutor` (`buildCommand`, `executeJob`), and proves the
specified properties about them.

Conventions of the embedding:
* Timestamps (`NOW()`, `new Date()`) are explicit `Nat` parameters.
* Nullable database columns are `Option` fields; `none` is SQL `NULL`.
* The ORM (`prisma.job.update` / the `save` method) skips any field whose
  in-memory value is `undefined` and writes `NULL` for a field whose value is
  `null`.  This distinction is modelled by `prismaSet`: the first argument is
  the in-memory value (`none` = `undefined`), the second the stored column.
* Instance methods of the `Job` class are modelled at the level of the stored
  row, under the assumption that the in-memory object mirrors the stored row
  when the method is called (which holds on the worker path, where jobs are
  materialised from `RETURNING *`); `save` then round-trips all unmentioned
  columns.
* The bookkeeping column `updated_at` (maintained by the ORM on every write)
  is not part of the modelled row.
-/

/-- The `JobStatus` enum of the database schema. -/
inductive JobStatus where
  | PENDING
  | RUNNING
  | COMPLETED
  | FAILED
  | STALLED
  | CANCELLED
deriving DecidableEq, Repr

/-- A stored row of the `job` table (columns as in the schema; `updated_at`
omitted, see the module header).  Field defaults mirror the defaults of the
TypeScript `Job` class / schema (`status=PENDING`, `priority=0`,
`max_attempts=1`, `attempts_made=0`, `keep_logs=50`). -/
structure Job where
  id : Nat
  custom_id : Option String := none
  name : String := ""
  command : String := ""
  args : Option (List String) := none
  working_dir : Option String := none
  timeout : Option Nat := none
  status : JobStatus := JobStatus.PENDING
  priority : Int := 0
  std_out : Option String := none
  std_err : Option String := none
  exit_code : Option Int := none
  max_attempts : Nat := 1
  attempts_made : Nat := 0
  created_at : Nat := 0
  processed_on : Option Nat := none
  finished_on : Option Nat := none
  failed_reason : Option String := none
  stack_trace : Option String := none
  lock_token : Option String := none
  keep_logs : Nat := 50
  queue_id : Nat := 0
deriving DecidableEq, Repr

/-- Prisma update semantics for a nullable column: an in-memory value of
`undefined` (modelled `none`) is omitted from the UPDATE, so the stored value
is kept; a concrete value is written.  (An explicit `null` write is modelled
directly by setting the column to `none` in the result record.) -/
def prismaSet {α : Type} (memVal : Option α) (stored : Option α) : Option α :=
  match memVal with
  | none => stored
  | some v => some v

namespace Job

/-- `Job.moveToRunning` (job.ts:150-172): locks the row, then unconditionally
sets `status=RUNNING`, `lock_token`, `processed_on=now` and increments
`attempts_made`.  The source contains no check of the current status. -/
def moveToRunning (j : Job) (lockToken : String) (now : Nat) : Job :=
  { j with
    status := JobStatus.RUNNING
    lock_token := some lockToken
    processed_on := some now
    attempts_made := j.attempts_made + 1 }

/-- `Job.moveToCompleted` (job.ts:180-206): sets `status=COMPLETED`,
`exit_code`, `finished_on=now`, `lock_token=NULL` and the captured outputs
(`stdOut`/`stdErr` are optional parameters; `undefined` leaves the stored
column unchanged). -/
def moveToCompleted (j : Job) (exitCode : Int) (stdOut stdErr : Option String)
    (now : Nat) : Job :=
  { j with
    status := JobStatus.COMPLETED
    exit_code := some exitCode
    finished_on := some now
    lock_token := none
    std_out := prismaSet stdOut j.std_out
    std_err := prismaSet stdErr j.std_err }

/-- `Job.shouldRetry` (job.ts:266-268). -/
def shouldRetry (j : Job) : Bool :=
  j.attempts_made < j.max_attempts

/-- `Job.moveToFailed` (job.ts:215-260).  The method first assigns
`failedReason`, `stackTrace`, `exitCode`, `lockToken=null`, `stdOut`,
`stdErr`, `processedOn=now`, `finishedOn=now` on the in-memory object; in the
retry branch it then resets `status=PENDING` and sets `finishedOn`,
`processedOn`, `failedReason`, `stackTrace` back to `undefined` (and
`lockToken` to `null`) before calling `save`.  Because `save` omits
`undefined` fields from the UPDATE, the stored `processed_on`, `finished_on`,
`failed_reason` and `stack_trace` keep their previous values in that branch.
The returned flag records whether a `new_job` notification is republished
(the retry branch notifies). -/
def moveToFailed (j : Job) (errMessage errStack : String) (exitCode : Option Int)
    (stdOut stdErr : Option String) (now : Nat) : Job × Bool :=
  if j.shouldRetry then
    ({ j with
        status := JobStatus.PENDING
        lock_token := none
        exit_code := prismaSet exitCode j.exit_code
        std_out := prismaSet stdOut j.std_out
        std_err := prismaSet stdErr j.std_err }, true)
  else
    ({ j with
        status := JobStatus.FAILED
        failed_reason := some errMessage
        stack_trace := some errStack
        exit_code := prismaSet exitCode j.exit_code
        lock_token := none
        std_out := prismaSet stdOut j.std_out
        std_err := prismaSet stdErr j.std_err
        processed_on := some now
        finished_on := some now }, false)

/-- `Job.moveToCancelled` (job.ts:541-564): locks the row and unconditionally
sets `status=CANCELLED`, `failed_reason=reason`, `finished_on=now`,
`lock_token=NULL`.  The source contains no check of the current status. -/
def moveToCancelled (j : Job) (reason : String) (now : Nat) : Job :=
  { j with
    status := JobStatus.CANCELLED
    failed_reason := some reason
    finished_on := some now
    lock_token := none }

/-- Static `Job.cancelJob` (job.ts:571-619).  Its row-lock query reads
`SELECT id FROM "Job" ... FOR UPDATE` — a quoted, case-sensitive identifier —
while the table is mapped to lowercase `job` (every other raw query in the
file reads `FROM job` or `FROM "job"`).  PostgreSQL therefore raises
`relation "Job" does not exist` on every call; the transaction aborts and the
catch block rethrows `Error cancelling job …`, before the PENDING-only status
check or the CANCELLED update (which exist in the source as dead code) is
ever reached.  The method always fails and leaves the row unchanged,
whatever the current status. -/
def cancelJob (j : Job) (reason : String) (now : Nat) : Except String Job :=
  Except.error
    ("Error cancelling job " ++ toString j.id ++
      ": relation \"Job\" does not exist")

/-- Static `Job.retry` (job.ts:519-535): a single UPDATE with the six concrete
values `status=PENDING`, `failed_reason=NULL`, `stack_trace=NULL`,
`lock_token=NULL`, `finished_on=NULL`, `exit_code=NULL`; no other column is
mentioned and there is no status precondition. -/
def retry (j : Job) : Job :=
  { j with
    status := JobStatus.PENDING
    failed_reason := none
    stack_trace := none
    lock_token := none
    finished_on := none
    exit_code := none }

end Job

/-! ## Remote executor: command construction and exit-code handling -/

/-- Character class of the `shell-escape` npm dependency: an argument needs
quoting iff it contains a character outside `[A-Za-z0-9_/:=-]`. -/
def unsafeShellChar (c : Char) : Bool :=
  !(c.isAlpha || c.isDigit || c == '_' || c == '/' || c == ':' || c == '=' ||
    c == '-')

/-- `shell-escape`: each single quote inside a quoted argument is replaced by
the four characters of the JS replacement string `'\''`. -/
def escQuote (c : Char) : List Char :=
  if c == '\'' then ['\'', '\\', '\'', '\''] else [c]

/-- `shell-escape`: the JS post-processing `replace(/^(?:'')+/g, '')` removes
repeated empty-quote pairs at the start of the quoted argument. -/
def stripLeadingQuotePairs : List Char → List Char
  | '\'' :: '\'' :: rest => stripLeadingQuotePairs rest
  | l => l

/-- `shell-escape`: the JS post-processing `replace(/\\'''/g, "\\'")` rewrites
each occurrence of backslash-quote-quote-quote to backslash-quote, scanning
left to right. -/
def fixEscapedQuoteRuns : List Char → List Char
  | '\\' :: '\'' :: '\'' :: '\'' :: rest => '\\' :: '\'' :: fixEscapedQuoteRuns rest
  | c :: rest => c :: fixEscapedQuoteRuns rest
  | [] => []

/-- One argument as escaped by the `shell-escape` npm package (a dependency of
the repository, imported by `remote-executor.ts`): arguments made only of safe
characters pass through unchanged; any other argument is wrapped in single
quotes with embedded quotes escaped, then post-processed. -/
def escapeShellArg (s : String) : String :=
  if s.data.any unsafeShellChar then
    String.mk (fixEscapedQuoteRuns (stripLeadingQuotePairs
      ('\'' :: ((s.data.flatMap escQuote) ++ ['\'']))))
  else s

/-- The `shell-escape` npm package: escape each argument and join with
spaces. -/
def shellEscape (a : List String) : String :=
  String.intercalate " " (a.map escapeShellArg)

/-- TypeScript truthiness for `a || b` on an optional string: `undefined` and
the empty string fall through to the right operand. -/
def orFalsy (a : Option String) (b : String) : String :=
  match a with
  | some s => if s = "" then b else s
  | none => b

/-- The result of `ssh.execCommand`: the exit `code` reported by the SSH
layer may be null. -/
structure SSHResult where
  code : Option Int
  stdout : String
  stderr : String

namespace RemoteExecutor

/-- The non-SSH part of `RemoteExecutionConfig` (remote-ssh.ts): optional
working directory and optional environment map. -/
structure Config where
  workingDir : Option String := none
  env : Option (List (String × String)) := none

/-- `RemoteExecutor.buildCommand` (remote-executor.ts:103-110): when `args` is
absent or empty the raw `command` string is returned unescaped; otherwise the
list `[command, ...args]` is shell-escaped. -/
def buildCommand (j : Job) : String :=
  match j.args with
  | none => j.command
  | some [] => j.command
  | some args => shellEscape (j.command :: args)

/-- The `export KEY="VALUE";` pairs of `executeJob`, joined with single
spaces; the empty string when no environment map is configured. -/
def envString (cfg : Config) : String :=
  match cfg.env with
  | none => ""
  | some entries =>
      String.intercalate " "
        (entries.map (fun kv => "export " ++ kv.1 ++ "=\"" ++ kv.2 ++ "\";"))

/-- `executeJob`: `commandWithEnv = envString ? `${envString} ${fullCommand}`
: fullCommand`. -/
def commandWithEnv (cfg : Config) (fullCommand : String) : String :=
  if envString cfg = "" then fullCommand else envString cfg ++ " " ++ fullCommand

/-- The command string `RemoteExecutor.executeJob` (remote-executor.ts:40-79)
passes to `ssh.execCommand`. -/
def executeJobCommand (cfg : Config) (j : Job) : String :=
  commandWithEnv cfg (buildCommand j)

/-- The `cwd` option `executeJob` passes to `ssh.execCommand`:
`job.workingDir || this.config.workingDir || '/tmp'`. -/
def executeJobCwd (cfg : Config) (j : Job) : String :=
  orFalsy j.working_dir (orFalsy cfg.workingDir "/tmp")

/-- The exit code `executeJob` returns: `result.code ?? 0`. -/
def executeJobExitCode (r : SSHResult) : Int :=
  r.code.getD 0

end RemoteExecutor

/-- Following the spec's words for C8 (deliberately NOT the source): the
configured environment-export prefix followed by the shell-escaped list
`[command, ...args]`, with no special case for an empty or absent args
list. -/
def specEscapedCommand (cfg : RemoteExecutor.Config) (j : Job) : String :=
  RemoteExecutor.commandWithEnv cfg (shellEscape (j.command :: j.args.getD []))

namespace Worker

/-- `Worker.processJob` (worker section of the sources, lines 811-847): a
non-zero exit code constructs `Error("Job failed with exit code …")` and calls
`moveToFailed(error, exitCode, stdout, stderr)`; a zero exit code calls
`moveToCompleted(exitCode, stdout, stderr)`.  (The runtime-generated
`error.stack` string is modelled by the error message.) -/
def processJob (j : Job) (r : SSHResult) (now : Nat) : Job :=
  let exitCode := RemoteExecutor.executeJobExitCode r
  if exitCode ≠ 0 then
    (j.moveToFailed ("Job failed with exit code " ++ toString exitCode)
      ("Job failed with exit code " ++ toString exitCode) (some exitCode)
      (some r.stdout) (some r.stderr) now).1
  else
    j.moveToCompleted exitCode (some r.stdout) (some r.stderr) now

end Worker

/-! ## Job logs: `addLog` and `cleanOldLogs`

The `job_log` rows of one job are modelled as a list of `(sequence, message)`
pairs (the table has `unique(job_id, sequence)`, so the sequence identifies a
row).  The queries run under the parent-row lock, so the per-job log history
is a sequential fold. -/

/-- A live `job_log` row of one job: `(sequence, message)`. -/
abbrev LogRow : Type := Nat × String

/-- The ordering `ORDER BY sequence DESC` used by the log queries. -/
def seqDescLE (a b : LogRow) : Prop :=
  b.1 ≤ a.1

instance : DecidableRel seqDescLE :=
  fun a b => Nat.decLe b.1 a.1

/-- The rows of one job sorted by `sequence DESC`. -/
def sortDescLogs (logs : List LogRow) : List LogRow :=
  List.insertionSort seqDescLE logs

/-- The sequence `addLog` assigns (job.ts:289-299): the query `ORDER BY
sequence DESC LIMIT 1` yields the current maximum, and the new sequence is
`lastLog[0].sequence + 1`, or `1` when there are no rows. -/
def nextSequence (logs : List LogRow) : Nat :=
  match (sortDescLogs logs).head? with
  | none => 1
  | some p => p.1 + 1

/-- `Job.cleanOldLogs` (job.ts:333-359): with a falsy (zero) `keep_logs` the
method returns without deleting; otherwise `findMany orderBy sequence desc,
skip keepLogs` selects the rows beyond the newest `keepLogs` and, when that
selection is non-empty, deletes exactly the rows with those sequence
values. -/
def cleanOldLogs (keepLogs : Nat) (logs : List LogRow) : List LogRow :=
  if keepLogs = 0 then logs
  else
    let stale := ((sortDescLogs logs).drop keepLogs).map Prod.fst
    if stale = [] then logs
    else logs.filter (fun e => decide (e.1 ∉ stale))

/-- `Job.addLog` (job.ts:274-314): under the job-row lock, compute the next
sequence, insert `(sequence, message)`, then clean old logs in the same
transaction. -/
def addLog (keepLogs : Nat) (logs : List LogRow) (message : String) :
    List LogRow :=
  cleanOldLogs keepLogs ((nextSequence logs, message) :: logs)

/-- The surviving rows after a finite sequence of `addLog` calls, starting
from a job with no logs. -/
def addLogAll (keepLogs : Nat) (msgs : List String) : List LogRow :=
  msgs.foldl (addLog keepLogs) []

/-- Like `addLogAll`, additionally recording the trace of every sequence
value ever assigned (live plus later-deleted rows). -/
def addLogRun (keepLogs : Nat) (msgs : List String) : List LogRow × List Nat :=
  msgs.foldl
    (fun acc m => (addLog keepLogs acc.1 m, acc.2 ++ [nextSequence acc.1]))
    ([], [])

/-- Proof-side description of the log table contents: `seqTag i ms` tags the
messages `ms` with consecutive sequences starting at `i + 1`. -/
def seqTag (i : Nat) : List String → List LogRow
  | [] => []
  | m :: ms => (i + 1, m) :: seqTag (i + 1) ms

/-- Proof-side closed form of the surviving rows: the newest `K` of the
tagged messages, newest first. -/
def logsClosedForm (keepLogs : Nat) (msgs : List String) : List LogRow :=
  (seqTag 0 msgs).reverse.take keepLogs

/-! ## The atomic lease query (`Worker.fetchAndLockNextJobs`)

The job table is modelled as a list of rows; the single SQL statement is
atomic, so any interleaving of concurrent lease operations serialises into a
sequence of applications of this function to the evolving table. -/

/-- The lease ordering `ORDER BY priority ASC, created_at ASC, id ASC`. -/
def leaseLE (a b : Job) : Prop :=
  a.priority < b.priority ∨
    (a.priority = b.priority ∧
      (a.created_at < b.created_at ∨
        (a.created_at = b.created_at ∧ a.id ≤ b.id)))

instance : DecidableRel leaseLE :=
  fun a b => by unfold leaseLE; infer_instance

instance : IsTotal Job leaseLE :=
  ⟨by intro a b; unfold leaseLE; omega⟩

instance : IsTrans Job leaseLE :=
  ⟨by intro a b c; unfold leaseLE; omega⟩

/-- The `WHERE` clause of the CTE: `status = 'PENDING' AND queue_id = (SELECT
id FROM queue WHERE name = $2) AND lock_token IS NULL`.  The queue-name
subquery is modelled by its resolved queue id. -/
def leaseEligible (qid : Nat) (r : Job) : Bool :=
  decide (r.status = JobStatus.PENDING) && decide (r.lock_token = none) &&
    decide (r.queue_id = qid)

/-- The `SET` clause of the lease UPDATE: `status='RUNNING', lock_token=$5,
processed_on=NOW(), attempts_made = attempts_made + 1`. -/
def leaseUpdate (lockToken : String) (now : Nat) (r : Job) : Job :=
  { r with
    status := JobStatus.RUNNING
    lock_token := some lockToken
    processed_on := some now
    attempts_made := r.attempts_made + 1 }

namespace Worker

/-- `Worker.fetchAndLockNextJobs` (worker source, lines 746-809): the CTE
selects the ids of the first `slotsToFill` eligible rows in lease order
(`FOR UPDATE SKIP LOCKED` under serial execution selects exactly these); the
UPDATE rewrites those rows in place and `RETURNING *` hands them back.
Returns `(returned rows, updated table)`.  PostgreSQL guarantees no output
order for `UPDATE … RETURNING *`; the model lists the returned batch in the
CTE's selection order purely as a deterministic normalization, and only
permutation-invariant properties are proved of it. -/
def fetchAndLockNextJobs (db : List Job) (qid : Nat) (slotsToFill : Nat)
    (lockToken : String) (now : Nat) : List Job × List Job :=
  let selected :=
    (List.insertionSort leaseLE (db.filter (leaseEligible qid))).take
      slotsToFill
  let ids := selected.map Job.id
  (selected.map (leaseUpdate lockToken now),
   db.map (fun r => if r.id ∈ ids then leaseUpdate lockToken now r else r))

end Worker

/-! ## Claims about the row-level transitions (C2, C5, C6, C10) -/

/-- C6 counterexample: `moveToRunning` on a COMPLETED job does not fail and
does not leave the row unchanged — it moves the job to RUNNING.  This refutes
the claim that `moveToRunning` asserts the current status is PENDING. -/
theorem c6_moveToRunning_counterexample :
    ({ id := 1, status := JobStatus.COMPLETED : Job}).moveToRunning "tok" 7
        = { id := 1, status := JobStatus.RUNNING, lock_token := some "tok",
            processed_on := some 7, attempts_made := 1 } ∧
    ({ id := 1, status := JobStatus.COMPLETED : Job}).status ≠ JobStatus.PENDING ∧
    ({ id := 1, status := JobStatus.COMPLETED : Job}).moveToRunning "tok" 7
        ≠ { id := 1, status := JobStatus.COMPLETED } := by
  decide

/-- C6 (amended): `moveToRunning(lockToken)` performs no status check: from
any current status it sets `status=RUNNING`, `lock_token=lockToken`,
`processed_on=now`, increments `attempts_made` by 1, and leaves every other
column unchanged. -/
theorem c6_moveToRunning_spec (j : Job) (lockToken : String) (now : Nat) :
    (j.moveToRunning lockToken now).status = JobStatus.RUNNING ∧
    (j.moveToRunning lockToken now).lock_token = some lockToken ∧
    (j.moveToRunning lockToken now).processed_on = some now ∧
    (j.moveToRunning lockToken now).attempts_made = j.attempts_made + 1 ∧
    (j.moveToRunning lockToken now).id = j.id ∧
    (j.moveToRunning lockToken now).custom_id = j.custom_id ∧
    (j.moveToRunning lockToken now).name = j.name ∧
    (j.moveToRunning lockToken now).command = j.command ∧
    (j.moveToRunning lockToken now).args = j.args ∧
    (j.moveToRunning lockToken now).working_dir = j.working_dir ∧
    (j.moveToRunning lockToken now).timeout = j.timeout ∧
    (j.moveToRunning lockToken now).priority = j.priority ∧
    (j.moveToRunning lockToken now).std_out = j.std_out ∧
    (j.moveToRunning lockToken now).std_err = j.std_err ∧
    (j.moveToRunning lockToken now).exit_code = j.exit_code ∧
    (j.moveToRunning lockToken now).max_attempts = j.max_attempts ∧
    (j.moveToRunning lockToken now).created_at = j.created_at ∧
    (j.moveToRunning lockToken now).finished_on = j.finished_on ∧
    (j.moveToRunning lockToken now).failed_reason = j.failed_reason ∧
    (j.moveToRunning lockToken now).stack_trace = j.stack_trace ∧
    (j.moveToRunning lockToken now).keep_logs = j.keep_logs ∧
    (j.moveToRunning lockToken now).queue_id = j.queue_id :=
  ⟨rfl, rfl, rfl, rfl, rfl, rfl, rfl, rfl, rfl, rfl, rfl, rfl, rfl, rfl, rfl,
   rfl, rfl, rfl, rfl, rfl, rfl, rfl⟩

/-- C5 counterexample: instance method `moveToCancelled` on a RUNNING (hence
non-PENDING) job succeeds and rewrites the row, refuting the claim that
cancelling a non-PENDING job fails and leaves the row entirely unchanged; and
static `cancelJob` on a PENDING job fails (its lock query references the
non-existent relation `"Job"`), refuting the claim that cancellation succeeds
from PENDING and then sets the CANCELLED fields. -/
theorem c5_moveToCancelled_counterexample :
    ({ id := 1, status := JobStatus.RUNNING, lock_token := some "tok" : Job}).status
        ≠ JobStatus.PENDING ∧
    Job.moveToCancelled
        { id := 1, status := JobStatus.RUNNING, lock_token := some "tok" }
        "user request" 9
      = { id := 1, status := JobStatus.CANCELLED, lock_token := none,
          failed_reason := some "user request", finished_on := some 9 } ∧
    Job.moveToCancelled
        { id := 1, status := JobStatus.RUNNING, lock_token := some "tok" }
        "user request" 9
      ≠ { id := 1, status := JobStatus.RUNNING, lock_token := some "tok" } ∧
    ({ id := 2 } : Job).status = JobStatus.PENDING ∧
    Job.cancelJob { id := 2 } "user request" 9
      = Except.error "Error cancelling job 2: relation \"Job\" does not exist" :=
  ⟨by decide, by decide, by decide, rfl, rfl⟩

/-- C5 (amended): the instance method `moveToCancelled` applies the CANCELLED
update (`status=CANCELLED`, `failed_reason=reason`, `finished_on=now`,
`lock_token=NULL`) unconditionally, whatever the current status.  The static
`cancelJob` never cancels anything: its row-lock query references the
non-existent relation `"Job"` (the table is lowercase `job`), so every call —
whatever the current status, PENDING included — fails with a
relation-does-not-exist error and leaves the row unchanged; its PENDING-only
check and its UPDATE are dead code. -/
theorem c5_cancellation_spec (j : Job) (reason : String) (now : Nat) :
    ((j.moveToCancelled reason now).status = JobStatus.CANCELLED ∧
     (j.moveToCancelled reason now).failed_reason = some reason ∧
     (j.moveToCancelled reason now).finished_on = some now ∧
     (j.moveToCancelled reason now).lock_token = none ∧
     (j.moveToCancelled reason now).attempts_made = j.attempts_made ∧
     (j.moveToCancelled reason now).processed_on = j.processed_on ∧
     (j.moveToCancelled reason now).exit_code = j.exit_code ∧
     (j.moveToCancelled reason now).status ≠ JobStatus.PENDING) ∧
    j.cancelJob reason now
      = Except.error
          ("Error cancelling job " ++ toString j.id ++
            ": relation \"Job\" does not exist") ∧
    ∀ r' : Job, j.cancelJob reason now ≠ Except.ok r' := by
  refine ⟨⟨rfl, rfl, rfl, rfl, rfl, rfl, rfl, by simp [Job.moveToCancelled]⟩,
    rfl, ?_⟩
  intro r' h
  simp [Job.cancelJob] at h

/-- C2 counterexample: on a job with `attempts_made < max_attempts` (retry
branch), `moveToFailed` leaves the stored `processed_on`, `finished_on`,
`failed_reason` and `stack_trace` at their previous non-NULL values instead of
clearing them: the in-memory object sets them to `undefined`, which the ORM
omits from the UPDATE. -/
theorem c2_moveToFailed_counterexample :
    (Job.moveToFailed
      { id := 1, attempts_made := 1, max_attempts := 2, status := JobStatus.RUNNING,
        lock_token := some "tok", processed_on := some 5, finished_on := some 6,
        failed_reason := some "old reason", stack_trace := some "old trace" }
      "boom" "boom-stack" (some 1) none none 7).1
      = { id := 1, attempts_made := 1, max_attempts := 2, status := JobStatus.PENDING,
          lock_token := none, processed_on := some 5, finished_on := some 6,
          failed_reason := some "old reason", stack_trace := some "old trace",
          exit_code := some 1 } := by
  decide

/-- C2 (amended): `moveToFailed(error, exitCode, stdOut, stdErr)` — if
`attempts_made < max_attempts` the job is reset to `status=PENDING` with
`lock_token` cleared, a `new_job` notification republished and
`attempts_made` preserved, while the stored `processed_on`, `finished_on`,
`failed_reason` and `stack_trace` keep their previous values (the UPDATE omits
them); otherwise the job is set to `status=FAILED` with `failed_reason`,
`stack_trace`, `exit_code` set and both `processed_on` and `finished_on` set
to now. -/
theorem c2_moveToFailed_spec (j : Job) (errM errS : String) (ec : Option Int)
    (so se : Option String) (now : Nat) :
    (j.moveToFailed errM errS ec so se now).2
        = decide (j.attempts_made < j.max_attempts) ∧
    (j.moveToFailed errM errS ec so se now).1.status
        = (if j.attempts_made < j.max_attempts then JobStatus.PENDING
           else JobStatus.FAILED) ∧
    (j.moveToFailed errM errS ec so se now).1.lock_token = none ∧
    (j.moveToFailed errM errS ec so se now).1.attempts_made = j.attempts_made ∧
    (j.moveToFailed errM errS ec so se now).1.max_attempts = j.max_attempts ∧
    (j.moveToFailed errM errS ec so se now).1.processed_on
        = (if j.attempts_made < j.max_attempts then j.processed_on else some now) ∧
    (j.moveToFailed errM errS ec so se now).1.finished_on
        = (if j.attempts_made < j.max_attempts then j.finished_on else some now) ∧
    (j.moveToFailed errM errS ec so se now).1.failed_reason
        = (if j.attempts_made < j.max_attempts then j.failed_reason else some errM) ∧
    (j.moveToFailed errM errS ec so se now).1.stack_trace
        = (if j.attempts_made < j.max_attempts then j.stack_trace else some errS) ∧
    (j.moveToFailed errM errS ec so se now).1.exit_code = prismaSet ec j.exit_code ∧
    (j.moveToFailed errM errS ec so se now).1.created_at = j.created_at ∧
    (j.moveToFailed errM errS ec so se now).1.priority = j.priority ∧
    (j.moveToFailed errM errS ec so se now).1.queue_id = j.queue_id := by
  by_cases h : j.attempts_made < j.max_attempts <;>
    simp [Job.moveToFailed, Job.shouldRetry, h]

/-- C10: the static `Job.retry(jobId)` update is unconditional in the current
status and touches exactly `status→PENDING` and the five NULLed columns
`failed_reason`, `stack_trace`, `lock_token`, `finished_on`, `exit_code`;
every other modelled column — in particular `attempts_made`, and also
`processed_on` — is unchanged.  (The ORM-managed `updated_at` bookkeeping
timestamp is outside the modelled row.) -/
theorem c10_retry_frame (j : Job) :
    (j.retry).status = JobStatus.PENDING ∧
    (j.retry).failed_reason = none ∧
    (j.retry).stack_trace = none ∧
    (j.retry).lock_token = none ∧
    (j.retry).finished_on = none ∧
    (j.retry).exit_code = none ∧
    (j.retry).attempts_made = j.attempts_made ∧
    (j.retry).id = j.id ∧
    (j.retry).custom_id = j.custom_id ∧
    (j.retry).name = j.name ∧
    (j.retry).command = j.command ∧
    (j.retry).args = j.args ∧
    (j.retry).working_dir = j.working_dir ∧
    (j.retry).timeout = j.timeout ∧
    (j.retry).priority = j.priority ∧
    (j.retry).std_out = j.std_out ∧
    (j.retry).std_err = j.std_err ∧
    (j.retry).max_attempts = j.max_attempts ∧
    (j.retry).created_at = j.created_at ∧
    (j.retry).processed_on = j.processed_on ∧
    (j.retry).keep_logs = j.keep_logs ∧
    (j.retry).queue_id = j.queue_id :=
  ⟨rfl, rfl, rfl, rfl, rfl, rfl, rfl, rfl, rfl, rfl, rfl, rfl, rfl, rfl, rfl,
   rfl, rfl, rfl, rfl, rfl, rfl, rfl⟩

/-! ## Claims C8 and C9 -/

/-- C8 counterexample: for a job whose command contains a space and whose args
list is absent, the command actually sent is the raw command string, while the
claimed construction (always shell-escaping `[command, ...args]`) would send
the single-quoted form; the two differ. -/
theorem c8_executeJob_counterexample :
    RemoteExecutor.executeJobCommand {} { id := 1, command := "echo hi" }
        = "echo hi" ∧
    specEscapedCommand {} { id := 1, command := "echo hi" }
        = "'echo hi'" ∧
    RemoteExecutor.executeJobCommand {} { id := 1, command := "echo hi" }
        ≠ specEscapedCommand {} { id := 1, command := "echo hi" } := by
  decide

/-- C8 (amended): when the args list is non-empty the command sent to the
remote shell is exactly the claimed environment-export prefix followed by the
shell-escaped `[command, ...args]`; when args is empty or absent the raw,
unescaped `command` string is used instead (still behind the same env
prefix).  The `cwd` option is `job.workingDir || config.workingDir ||
"/tmp"`. -/
theorem c8_executeJob_command_spec (cfg : RemoteExecutor.Config) (j : Job) :
    RemoteExecutor.executeJobCommand cfg j
      = (match j.args with
         | some (_ :: _) => specEscapedCommand cfg j
         | some [] => RemoteExecutor.commandWithEnv cfg j.command
         | none => RemoteExecutor.commandWithEnv cfg j.command) ∧
    RemoteExecutor.executeJobCwd cfg j
      = orFalsy j.working_dir (orFalsy cfg.workingDir "/tmp") := by
  refine ⟨?_, rfl⟩
  match h : j.args with
  | none =>
      simp [RemoteExecutor.executeJobCommand, RemoteExecutor.buildCommand, h]
  | some [] =>
      simp [RemoteExecutor.executeJobCommand, RemoteExecutor.buildCommand, h]
  | some (a :: rest) =>
      simp [RemoteExecutor.executeJobCommand, RemoteExecutor.buildCommand,
        specEscapedCommand, h]

/-- C9: when the SSH layer reports no numeric exit code (`result.code` null),
`executeJob` returns exit code 0 and the worker's dispatch records the job as
COMPLETED (with `exit_code = 0`), not FAILED. -/
theorem c9_null_exit_code_completes (j : Job) (stdout stderr : String)
    (now : Nat) :
    RemoteExecutor.executeJobExitCode ⟨none, stdout, stderr⟩ = 0 ∧
    (Worker.processJob j ⟨none, stdout, stderr⟩ now).status
        = JobStatus.COMPLETED ∧
    (Worker.processJob j ⟨none, stdout, stderr⟩ now).exit_code = some 0 ∧
    (Worker.processJob j ⟨none, stdout, stderr⟩ now).finished_on = some now := by
  refine ⟨rfl, ?_, ?_, ?_⟩ <;>
    simp [Worker.processJob, RemoteExecutor.executeJobExitCode,
      Job.moveToCompleted]

/-! ## Log retention and dense sequences (C3, C4) -/

theorem seqTag_append (i : Nat) (ms : List String) (x : String) :
    seqTag i (ms ++ [x]) = seqTag i ms ++ [(i + ms.length + 1, x)] := by
  induction ms generalizing i with
  | nil => simp [seqTag]
  | cons m ms ih =>
      simp only [List.cons_append, seqTag, List.length_cons, List.append_eq]
      rw [ih]
      rw [show i + (ms.length + 1) + 1 = i + 1 + ms.length + 1 by omega]

theorem map_fst_seqTag (i : Nat) (ms : List String) :
    (seqTag i ms).map Prod.fst = List.range' (i + 1) ms.length := by
  induction ms generalizing i with
  | nil => simp [seqTag]
  | cons m ms ih =>
      simp only [seqTag, List.map_cons, ih, List.length_cons, List.range'_succ]

theorem seqTag_fst_lt (i : Nat) (ms : List String) :
    List.Pairwise (fun a b : LogRow => a.1 < b.1) (seqTag i ms) := by
  have h := List.pairwise_lt_range' (i + 1) ms.length
  rw [← map_fst_seqTag] at h
  exact List.pairwise_map.mp h

theorem logsClosedForm_pairwise (K : Nat) (msgs : List String) :
    List.Pairwise (fun a b : LogRow => b.1 < a.1) (logsClosedForm K msgs) :=
  List.Pairwise.sublist (List.take_sublist _ _)
    (by rw [List.pairwise_reverse]; exact seqTag_fst_lt 0 msgs)

theorem logsClosedForm_sorted (K : Nat) (msgs : List String) :
    List.Sorted seqDescLE (logsClosedForm K msgs) :=
  List.Pairwise.imp (fun h => Nat.le_of_lt h) (logsClosedForm_pairwise K msgs)

theorem sortDescLogs_of_sorted {l : List LogRow}
    (h : List.Sorted seqDescLE l) : sortDescLogs l = l :=
  h.insertionSort_eq

theorem fst_le_of_mem_logsClosedForm {e : LogRow} {K : Nat}
    {msgs : List String} (h : e ∈ logsClosedForm K msgs) :
    e.1 ≤ msgs.length := by
  unfold logsClosedForm at h
  have h1 : e ∈ (seqTag 0 msgs).reverse := List.take_subset _ _ h
  rw [List.mem_reverse] at h1
  have h2 : e.1 ∈ (seqTag 0 msgs).map Prod.fst := List.mem_map_of_mem _ h1
  rw [map_fst_seqTag] at h2
  have h3 := List.mem_range'_1.mp h2
  omega

theorem nextSequence_closedForm (K : Nat) (hK : K ≠ 0) (ms : List String) :
    nextSequence (logsClosedForm K ms) = ms.length + 1 := by
  rcases List.eq_nil_or_concat ms with rfl | ⟨ms', y, rfl⟩
  · simp [logsClosedForm, seqTag, nextSequence, sortDescLogs,
      List.insertionSort]
  · obtain ⟨K', rfl⟩ := Nat.exists_eq_succ_of_ne_zero hK
    simp only [List.concat_eq_append]
    unfold nextSequence
    rw [sortDescLogs_of_sorted (logsClosedForm_sorted _ _)]
    unfold logsClosedForm
    rw [seqTag_append]
    simp [List.reverse_append]

theorem filter_notMem_of_forall (l : List LogRow) (dels : List Nat)
    (h : ∀ e ∈ l, e.1 ∈ dels) :
    l.filter (fun e => decide (e.1 ∉ dels)) = [] := by
  induction l with
  | nil => rfl
  | cons a tl ih =>
      rw [List.filter_cons]
      have ha := h a (List.mem_cons_self a tl)
      simp only [ha, not_true_eq_false, decide_False, Bool.false_eq_true,
        if_false]
      exact ih (fun e he => h e (List.mem_cons_of_mem _ he))

theorem filter_stale_eq_take (l : List LogRow)
    (h : List.Pairwise (fun a b : LogRow => b.1 < a.1) l) (K : Nat) :
    l.filter (fun e => decide (e.1 ∉ (l.drop K).map Prod.fst)) = l.take K := by
  induction l generalizing K with
  | nil => simp
  | cons a tl ih =>
      cases K with
      | zero =>
          simp only [List.drop_zero, List.take_zero]
          exact filter_notMem_of_forall _ _ (fun e he => List.mem_map_of_mem _ he)
      | succ K =>
          have hhead : ∀ b ∈ tl, b.1 < a.1 := (List.pairwise_cons.mp h).1
          have htl := (List.pairwise_cons.mp h).2
          simp only [List.drop_succ_cons, List.take_succ_cons, List.filter_cons]
          have hnot : a.1 ∉ (tl.drop K).map Prod.fst := by
            intro hmem
            obtain ⟨b, hb, hb1⟩ := List.mem_map.mp hmem
            have hbtl : b ∈ tl := List.drop_subset _ _ hb
            have := hhead b hbtl
            omega
          simp only [hnot, not_false_eq_true, decide_True, if_true]
          rw [ih htl K]

theorem addLog_closedForm (K : Nat) (hK : K ≠ 0) (ms : List String)
    (x : String) :
    addLog K (logsClosedForm K ms) x = logsClosedForm K (ms ++ [x]) := by
  obtain ⟨K', rfl⟩ := Nat.exists_eq_succ_of_ne_zero hK
  have hnext := nextSequence_closedForm (K' + 1) (Nat.succ_ne_zero K') ms
  unfold addLog
  rw [hnext]
  have hpw : List.Pairwise (fun a b : LogRow => b.1 < a.1)
      ((ms.length + 1, x) :: logsClosedForm (K' + 1) ms) := by
    refine List.pairwise_cons.mpr ⟨?_, logsClosedForm_pairwise _ _⟩
    intro b hb
    have hb1 := fst_le_of_mem_logsClosedForm hb
    simpa using Nat.lt_succ_of_le hb1
  have hsorted : List.Sorted seqDescLE
      ((ms.length + 1, x) :: logsClosedForm (K' + 1) ms) :=
    List.Pairwise.imp (fun h => Nat.le_of_lt h) hpw
  have hrhs : logsClosedForm (K' + 1) (ms ++ [x])
      = (ms.length + 1, x) :: (seqTag 0 ms).reverse.take K' := by
    unfold logsClosedForm
    rw [seqTag_append]
    simp [List.reverse_append, List.take_succ_cons]
  unfold cleanOldLogs
  rw [if_neg (Nat.succ_ne_zero K')]
  rw [sortDescLogs_of_sorted hsorted]
  by_cases hst :
      ((((ms.length + 1, x) :: logsClosedForm (K' + 1) ms).drop (K' + 1)).map
        Prod.fst) = []
  · rw [if_pos hst]
    have hdrop : ((ms.length + 1, x) :: logsClosedForm (K' + 1) ms).drop (K' + 1)
        = [] := by
      cases hd : ((ms.length + 1, x) :: logsClosedForm (K' + 1) ms).drop (K' + 1)
        with
      | nil => rfl
      | cons c cs => rw [hd] at hst; simp at hst
    have hlen : (logsClosedForm (K' + 1) ms).length ≤ K' := by
      have := congrArg List.length hdrop
      rw [List.length_drop] at this
      simp only [List.length_cons, List.length_nil] at this
      omega
    have hrev : (seqTag 0 ms).reverse.length ≤ K' := by
      have h1 : (logsClosedForm (K' + 1) ms).length
          = min (K' + 1) (seqTag 0 ms).reverse.length := by
        unfold logsClosedForm
        rw [List.length_take]
      omega
    rw [hrhs]
    unfold logsClosedForm
    rw [List.take_of_length_le hrev,
      List.take_of_length_le (Nat.le_succ_of_le hrev)]
  · rw [if_neg hst]
    rw [filter_stale_eq_take _ hpw (K' + 1)]
    rw [hrhs, List.take_succ_cons]
    unfold logsClosedForm
    rw [List.take_take, Nat.min_eq_left (Nat.le_succ K')]

theorem addLogAll_closedForm (K : Nat) (hK : K ≠ 0) (msgs : List String) :
    addLogAll K msgs = logsClosedForm K msgs := by
  induction msgs using List.reverseRecOn with
  | nil => simp [addLogAll, logsClosedForm, seqTag]
  | append_singleton ms x ih =>
      rw [addLogAll, List.foldl_append, List.foldl_cons, List.foldl_nil]
      rw [show List.foldl (addLog K) [] ms = addLogAll K ms from rfl, ih]
      exact addLog_closedForm K hK ms x

theorem map_fst_addLogAll (K : Nat) (hK : K ≠ 0) (msgs : List String) :
    (addLogAll K msgs).map Prod.fst
      = (List.range' 1 msgs.length).reverse.take K := by
  rw [addLogAll_closedForm K hK]
  unfold logsClosedForm
  rw [List.map_take, List.map_reverse, map_fst_seqTag]

theorem take_reverse_range' (n K : Nat) :
    (List.range' 1 n).reverse.take K
      = (List.range' (n - min n K + 1) (min n K)).reverse := by
  have hmn : min n K ≤ n := Nat.min_le_left n K
  have hsplit : List.range' 1 n
      = List.range' 1 (n - min n K) ++ List.range' (n - min n K + 1) (min n K) := by
    rw [show n - min n K + 1 = 1 + (n - min n K) by omega]
    rw [List.range'_append_1]
    rw [show min n K + (n - min n K) = n by omega]
  rw [hsplit, List.reverse_append, List.take_append_eq_append_take]
  have hlen : (List.range' (n - min n K + 1) (min n K)).reverse.length = min n K := by
    simp
  rw [List.take_of_length_le (by rw [hlen]; exact Nat.min_le_right n K)]
  have hnil : (List.range' 1 (n - min n K)).reverse.take
      (K - (List.range' (n - min n K + 1) (min n K)).reverse.length) = [] := by
    rw [hlen]
    rcases Nat.le_total K n with h | h
    · rw [show K - min n K = 0 by omega]
      rfl
    · rw [show n - min n K = 0 by omega]
      simp
  rw [hnil, List.append_nil]

/-- C3: for every job with `keep_logs = K + 1` (so any retention bound ≥ 1),
after any finite sequence of `addLog` calls with messages `msgs` the number of
surviving `job_log` rows is `min(total appends, keep_logs)`, and a sequence
value `s` survives exactly when it lies in the topmost `keep_logs`-window of
the assigned sequences `1..N` — i.e. the survivors are precisely the rows
with the largest sequence values. -/
theorem c3_log_retention (K : Nat) (msgs : List String) :
    (addLogAll (K + 1) msgs).length = min msgs.length (K + 1) ∧
    ∀ s : Nat, (∃ m, (s, m) ∈ addLogAll (K + 1) msgs) ↔
      (msgs.length - (K + 1) < s ∧ s ≤ msgs.length) := by
  have hmap := map_fst_addLogAll (K + 1) (Nat.succ_ne_zero K) msgs
  rw [take_reverse_range'] at hmap
  constructor
  · have hlen := congrArg List.length hmap
    simp only [List.length_map, List.length_reverse, List.length_range'] at hlen
    omega
  · intro s
    constructor
    · rintro ⟨m, hm⟩
      have hs : s ∈ (addLogAll (K + 1) msgs).map Prod.fst :=
        List.mem_map_of_mem Prod.fst hm
      rw [hmap, List.mem_reverse, List.mem_range'_1] at hs
      omega
    · intro hs
      have hmem : s ∈ (addLogAll (K + 1) msgs).map Prod.fst := by
        rw [hmap, List.mem_reverse, List.mem_range'_1]
        omega
      obtain ⟨⟨s', m'⟩, hp, hps⟩ := List.mem_map.mp hmem
      simp only at hps
      subst hps
      exact ⟨m', hp⟩

theorem addLogRun_fst_general (K : Nat) (msgs : List String) :
    ∀ (st : List LogRow) (tr : List Nat),
      (msgs.foldl
        (fun acc m => (addLog K acc.1 m, acc.2 ++ [nextSequence acc.1]))
        (st, tr)).1
      = msgs.foldl (addLog K) st := by
  induction msgs with
  | nil => intro st tr; rfl
  | cons m ms ih => intro st tr; exact ih (addLog K st m) (tr ++ [nextSequence st])

theorem addLogRun_fst (K : Nat) (msgs : List String) :
    (addLogRun K msgs).1 = addLogAll K msgs :=
  addLogRun_fst_general K msgs [] []

theorem addLogRun_trace_general (K : Nat) (msgs : List String) :
    ∀ (st : List LogRow) (tr : List Nat),
      (msgs.foldl
        (fun acc m => (addLog K acc.1 m, acc.2 ++ [nextSequence acc.1]))
        (st, tr)).2
      = tr ++ (msgs.foldl
          (fun acc m => (addLog K acc.1 m, acc.2 ++ [nextSequence acc.1]))
          (st, [])).2 := by
  induction msgs with
  | nil => intro st tr; simp
  | cons m ms ih =>
      intro st tr
      simp only [List.foldl_cons]
      rw [ih (addLog K st m) (tr ++ [nextSequence st]),
        ih (addLog K st m) ([] ++ [nextSequence st])]
      simp

theorem addLogRun_trace (K : Nat) (hK : K ≠ 0) (msgs : List String) :
    (addLogRun K msgs).2 = List.range' 1 msgs.length := by
  induction msgs using List.reverseRecOn with
  | nil => rfl
  | append_singleton ms x ih =>
      rw [addLogRun, List.foldl_append, List.foldl_cons, List.foldl_nil]
      rw [show (List.foldl
          (fun acc m => (addLog K acc.1 m, acc.2 ++ [nextSequence acc.1]))
          ([], []) ms) = addLogRun K ms from rfl]
      simp only []
      rw [ih, addLogRun_fst, addLogAll_closedForm K hK,
        nextSequence_closedForm K hK]
      rw [List.length_append, List.length_cons, List.length_nil]
      rw [List.range'_1_concat]
      rw [Nat.add_comm 1 ms.length]

/-- C4: starting from a job with no logs and `keep_logs = K + 1` (any
retention bound ≥ 1), after the `addLog` calls with messages `msgs` the trace
of assigned sequence values (live plus deleted) is exactly `1, 2, ..., N` —
each new sequence is the previous maximum plus one, starting at 1 — and the
live sequences, read in ascending order, are the contiguous block ending at
`N` whose concatenation after the remaining prefix reconstitutes `1..N`:
the live sequences are a contiguous suffix of the assigned prefix. -/
theorem c4_dense_sequences (K : Nat) (msgs : List String) :
    (addLogRun (K + 1) msgs).2 = List.range' 1 msgs.length ∧
    ((addLogRun (K + 1) msgs).1.map Prod.fst).reverse
      = List.range' (msgs.length - min msgs.length (K + 1) + 1)
          (min msgs.length (K + 1)) ∧
    List.range' 1 (msgs.length - min msgs.length (K + 1))
        ++ List.range' (msgs.length - min msgs.length (K + 1) + 1)
          (min msgs.length (K + 1))
      = List.range' 1 msgs.length := by
  refine ⟨addLogRun_trace (K + 1) (Nat.succ_ne_zero K) msgs, ?_, ?_⟩
  · rw [addLogRun_fst, map_fst_addLogAll (K + 1) (Nat.succ_ne_zero K),
      take_reverse_range', List.reverse_reverse]
  · rw [show msgs.length - min msgs.length (K + 1) + 1
        = 1 + (msgs.length - min msgs.length (K + 1)) by omega]
    rw [List.range'_append_1]
    rw [show min msgs.length (K + 1)
        + (msgs.length - min msgs.length (K + 1)) = msgs.length by omega]

/-! ## The lease claims (C1, C7) -/

/-- C1: every job returned by a lease was a PENDING row of the table with
NULL `lock_token` (and the right queue), and is handed back as that row set
to RUNNING under this worker's fresh token with `processed_on` set and
`attempts_made` incremented by 1; and a second lease operation on the updated
table — by the same or a different worker, with any token, batch size and
queue — never returns a job with the id of a job returned by the first, so
each PENDING job transitions to RUNNING under at most one worker's token. -/
theorem c1_lease_at_most_one (db : List Job) (qid₁ qid₂ n₁ n₂ : Nat)
    (tok₁ tok₂ : String) (now₁ now₂ : Nat) :
    (∀ j ∈ (Worker.fetchAndLockNextJobs db qid₁ n₁ tok₁ now₁).1,
        j.status = JobStatus.RUNNING ∧ j.lock_token = some tok₁ ∧
        j.processed_on = some now₁ ∧
        ∃ r, r ∈ db ∧ r.status = JobStatus.PENDING ∧ r.lock_token = none ∧
          r.queue_id = qid₁ ∧ j = leaseUpdate tok₁ now₁ r ∧
          j.attempts_made = r.attempts_made + 1) ∧
    (∀ j₁ ∈ (Worker.fetchAndLockNextJobs db qid₁ n₁ tok₁ now₁).1,
      ∀ j₂ ∈ (Worker.fetchAndLockNextJobs
          (Worker.fetchAndLockNextJobs db qid₁ n₁ tok₁ now₁).2
          qid₂ n₂ tok₂ now₂).1,
        j₁.id ≠ j₂.id) := by
  constructor
  · intro j hj
    simp only [Worker.fetchAndLockNextJobs, List.mem_map] at hj
    obtain ⟨r, hrsel, rfl⟩ := hj
    have hr2 : r ∈ List.insertionSort leaseLE (db.filter (leaseEligible qid₁)) :=
      List.mem_of_mem_take hrsel
    rw [List.mem_insertionSort] at hr2
    obtain ⟨hrdb, helig⟩ := List.mem_filter.mp hr2
    unfold leaseEligible at helig
    simp only [Bool.and_eq_true, decide_eq_true_eq] at helig
    exact ⟨rfl, rfl, rfl, r, hrdb, helig.1.1, helig.1.2, helig.2, rfl, rfl⟩
  · intro j₁ hj₁ j₂ hj₂
    simp only [Worker.fetchAndLockNextJobs] at hj₁ hj₂
    obtain ⟨r₁, hr₁sel, rfl⟩ := List.mem_map.mp hj₁
    obtain ⟨r₂, hr₂sel, rfl⟩ := List.mem_map.mp hj₂
    have hid₁ : r₁.id ∈
        ((List.insertionSort leaseLE (db.filter (leaseEligible qid₁))).take
          n₁).map Job.id :=
      List.mem_map_of_mem Job.id hr₁sel
    have hr₂mem :=
      (List.mem_insertionSort leaseLE).mp (List.mem_of_mem_take hr₂sel)
    obtain ⟨hr₂db, helig₂⟩ := List.mem_filter.mp hr₂mem
    have hpend : r₂.status = JobStatus.PENDING := by
      unfold leaseEligible at helig₂
      simp only [Bool.and_eq_true, decide_eq_true_eq] at helig₂
      exact helig₂.1.1
    obtain ⟨r₀, hr₀db, hr₀eq⟩ := List.mem_map.mp hr₂db
    intro heq
    have heq' : r₁.id = r₂.id := heq
    by_cases hc : r₀.id ∈ ((List.insertionSort leaseLE
        (db.filter (leaseEligible qid₁))).take n₁).map Job.id
    · rw [if_pos hc] at hr₀eq
      rw [← hr₀eq] at hpend
      simp [leaseUpdate] at hpend
    · rw [if_neg hc] at hr₀eq
      rw [← hr₀eq] at heq'
      rw [heq'] at hid₁
      exact hc hid₁

/- No theorem is stated about the ORDER of the returned lease batch:
PostgreSQL specifies no output order for `UPDATE … RETURNING *`, and the
worker does not re-sort, so batch-sortedness is not derivable from the
source.  Only permutation-invariant properties of the returned batch are
claimed (see `c1_lease_at_most_one`). -/
